import Mathlib

/-!
Verification of the F1RaceVision telemetry replay engine.

The Python sources (src/ui/replay.py, src/core/telemetry_loader.py) are
shallowly embedded.  Timestamps, coordinates, speeds and distances are
exact rationals (reals where a square root occurs), pandas frames become
lists of rows, and Python dict iteration becomes association lists kept
in insertion order.
-/

set_option maxHeartbeats 1000000

namespace F1RaceVision

/-! ## Timeline index (replay.py lines 518-520)

The replay loop resolves the current sample index of every driver with
bisect.bisect_right over the per-driver time axis. -/

/-- CPython bisect.bisect_right loop: while lo < hi, mid = (lo+hi)//2,
if x < a[mid] then hi = mid else lo = mid+1; finally return lo.  The
loop runs on explicit fuel; hi - lo shrinks on every iteration, so any
fuel of at least hi - lo makes the result fuel-independent. -/
def bisectLoop : Nat → List ℚ → ℚ → Nat → Nat → Nat
  | 0, _, _, lo, _ => lo
  | fuel + 1, a, x, lo, hi =>
    if lo < hi then
      if x < a.getD ((lo + hi) / 2) 0 then bisectLoop fuel a x lo ((lo + hi) / 2)
      else bisectLoop fuel a x ((lo + hi) / 2 + 1) hi
    else lo

/-- Python bisect.bisect_right(a, x) with default bounds lo = 0,
hi = len(a). -/
def bisect_right (a : List ℚ) (x : ℚ) : Nat := bisectLoop (a.length + 1) a x 0 a.length

/-- replay.py lines 518-520: idx = bisect.bisect_right(tr.times, current_time);
indices[code] = max(0, idx - 1).  Truncated Nat subtraction realises the
max with 0. -/
def resolveIndex (a : List ℚ) (x : ℚ) : Nat := bisect_right a x - 1

/-! ## Playback clock (replay.py lines 492-496 and 512-516) -/

/-- Clock state of the replay loop: the virtual cursor current_time and
the paused flag. -/
structure ClockState where
  current_time : ℚ
  paused : Bool

/-- Clock operations of the replay loop: adv models the per-frame
advance (line 513, current_time += dt * speed with the clamp of lines
514-516), seekF the K_RIGHT handler (line 493) and seekB the K_LEFT
handler (line 496). -/
inductive ClockOp where
  | adv : ℚ → ℚ → ClockOp
  | seekF : ClockOp
  | seekB : ClockOp

def stepClock (minT maxT : ℚ) (s : ClockState) : ClockOp → ClockState
  | ClockOp.adv dt rate =>
    if s.paused then s
    else
      if maxT ≤ s.current_time + dt * rate then ⟨maxT, true⟩
      else ⟨s.current_time + dt * rate, s.paused⟩
  | ClockOp.seekF => ⟨min maxT (s.current_time + 5), s.paused⟩
  | ClockOp.seekB => ⟨max minT (s.current_time - 5), s.paused⟩

/-- run_replay starts at current_time = min_time (line 464) with
paused = False (line 466). -/
def runClock (minT maxT : ℚ) (ops : List ClockOp) : ClockState :=
  ops.foldl (stepClock minT maxT) ⟨minT, false⟩

/-- An advance is valid when the wall-clock delta is non-negative and
the playback rate positive. -/
def validOp : ClockOp → Bool
  | ClockOp.adv dt rate => decide (0 ≤ dt) && decide (0 < rate)
  | _ => true

/-! ## Ranking engine (replay.py lines 113-156) -/

/-- Fields of the traces consumed by compute_ranking_data.  The Python
DriverTrace objects carry further display channels (positions, gears,
drs, sectors, pit status) that the ranking never reads. -/
structure DriverTrace where
  times : List ℚ
  speeds : List ℚ
  tyres : List String
  distances : List ℚ
  lap_numbers : List Nat

/-- One element of the intermediate ranking list built in replay.py
lines 114-126. -/
structure RankRow where
  code : String
  progress : ℚ
  lap : Nat
  current_tyre : String
  speed : ℚ

/-- Python list indexing, which raises IndexError out of range. -/
def pyGet {α : Type} (l : List α) (i : Nat) : Except String α :=
  match l.get? i with
  | some v => Except.ok v
  | none => Except.error "IndexError"

/-- replay.py lines 114-126: one ranking row per trace whose resolved
index lies inside its distances list; indices.get(code, 0) defaults a
missing entity to index 0, and an index at or past len(tr.distances)
skips the entity. -/
def rankRows (traces : List (String × DriverTrace)) (indices : List (String × Nat)) :
    Except String (List RankRow) :=
  match traces with
  | [] => Except.ok []
  | (code, tr) :: rest =>
    let idx := (indices.lookup code).getD 0
    if tr.distances.length ≤ idx then
      rankRows rest indices
    else do
      let prog ← pyGet tr.distances idx
      let lap ← pyGet tr.lap_numbers idx
      let tyre ← pyGet tr.tyres idx
      let spd ← pyGet tr.speeds idx
      let tail ← rankRows rest indices
      Except.ok (⟨code, prog, lap, tyre, spd⟩ :: tail)

/-- Sort relation of replay.py line 128: ranking.sort with key progress
and reverse=True.  Python sorting is stable, which a stable insertion
sort on the descending-progress relation realises exactly. -/
def rankRel (a b : RankRow) : Prop := b.progress ≤ a.progress

instance : DecidableRel rankRel :=
  fun a b => inferInstanceAs (Decidable (b.progress ≤ a.progress))

instance : IsTotal RankRow rankRel := ⟨fun a b => le_total b.progress a.progress⟩

instance : IsTrans RankRow rankRel := ⟨fun _ _ _ h1 h2 => le_trans h2 h1⟩

def sortRows (rows : List RankRow) : List RankRow := rows.insertionSort rankRel

/-- One leaderboard entry of replay.py lines 133-154.  gap_to_ahead
holds the rational value later formatted into the displayed string;
none models the leader's empty gap string. -/
structure RankEntry where
  position : Nat
  code : String
  gap_to_ahead : Option ℚ
  current_tyre : String

/-- Gap formula of replay.py lines 145-147: distance gap over the speed
of the car ahead in m/s, floored at 10 m/s. -/
def gapF (ahead cur : RankRow) : ℚ :=
  (ahead.progress - cur.progress) / max 10 (ahead.speed / 3.6)

/-- Loop of replay.py lines 142-154: each successive entry takes
position i + 1 and a gap computed against the row directly ahead. -/
def mkOutGo (pos : Nat) (ahead : RankRow) : List RankRow → List RankEntry
  | [] => []
  | cur :: rest =>
    ⟨pos, cur.code, some (gapF ahead cur), cur.current_tyre⟩ :: mkOutGo (pos + 1) cur rest

/-- replay.py lines 130-156: an empty ranking gives an empty
leaderboard; otherwise the leader (position 1, empty gap) is followed by
the loop entries. -/
def mkOut : List RankRow → List RankEntry
  | [] => []
  | r0 :: rest => ⟨1, r0.code, none, r0.current_tyre⟩ :: mkOutGo 2 r0 rest

/-- compute_ranking_data (replay.py lines 113-156). -/
def compute_ranking_data (traces : List (String × DriverTrace))
    (indices : List (String × Nat)) : Except String (List RankEntry) :=
  (rankRows traces indices).map (fun rows => mkOut (sortRows rows))

/-! Concrete traces for the ranking claims.  Field order: times, speeds,
tyres, distances, lap numbers. -/

def trA : DriverTrace := ⟨[0], [100], ["SOFT"], [100], [2]⟩

def trB : DriverTrace := ⟨[0], [100], ["SOFT"], [200], [1]⟩

def trZ : DriverTrace := ⟨[0], [100], ["SOFT"], [150], [1]⟩

def trC : DriverTrace := ⟨[0], [100], ["SOFT"], [150], [1]⟩

/-- Safety precondition of the ranking loop: the guard at replay.py
line 117 checks only the distances list, so the channel accesses that
follow it are safe just when every other channel list is at least as
long as the distances list.  The builder does not guarantee this: a
zero-row telemetry frame would give distances = [0.0] (seeded at
replay.py line 223) next to empty lap_numbers, tyres and speeds. -/
def WFTrace (tr : DriverTrace) : Prop :=
  tr.distances.length ≤ tr.lap_numbers.length ∧
  tr.distances.length ≤ tr.tyres.length ∧
  tr.distances.length ≤ tr.speeds.length

/-! ## Series builder: time axes (replay.py lines 212-218 and
telemetry_loader.py lines 44-49) -/

/-- pandas sort_values on the SessionTime column, realised by a stable
insertion sort on the timestamps. -/
def sortTimestamps (raw : List ℚ) : List ℚ := raw.insertionSort (fun a b => a ≤ b)

/-- telemetry_loader.py lines 47-49: rebase the sorted timestamps to
elapsed seconds from the first one. -/
def rebase (ts : List ℚ) : List ℚ := ts.map (fun t => t - ts.headD 0)

/-- Time axis built by process_driver (replay.py lines 212-218): the
concatenated telemetry is sorted by SessionTime and the raw seconds are
kept; neither de-duplication nor rebasing happens. -/
def processTimes (raw : List ℚ) : List ℚ := sortTimestamps raw

/-- math.dist of replay.py line 227 (the float square root is modelled
as the real one). -/
noncomputable def mathDist (p q : ℚ × ℚ) : ℝ :=
  Real.sqrt (((p.1 : ℝ) - (q.1 : ℝ)) ^ 2 + ((p.2 : ℝ) - (q.2 : ℝ)) ^ 2)

/-- Loop body of replay.py lines 224-228: running cumulative distance. -/
noncomputable def cumDistGo (prev : ℚ × ℚ) (acc : ℝ) : List (ℚ × ℚ) → List ℝ
  | [] => []
  | p :: rest => (acc + mathDist prev p) :: cumDistGo p (acc + mathDist prev p) rest

/-- replay.py lines 223-228: distances starts as [0.0] and accumulates
the Euclidean increments between consecutive positions. -/
noncomputable def cumDistances (ps : List (ℚ × ℚ)) : List ℝ :=
  match ps with
  | [] => [0]
  | p :: rest => 0 :: cumDistGo p 0 rest

/-- One row of the laps frame used by load_race_telemetry: start time,
lap number, tyre compound and the three sector durations in seconds. -/
structure Lap where
  start : ℚ
  number : Nat
  compound : String
  s1 : ℚ
  s2 : ℚ
  s3 : ℚ

/-- Loop of telemetry_loader.py lines 76-80: scan the laps in order,
remember the last index whose LapStartTime is at most the sample time,
and stop at the first lap past it. -/
def tyreScan (laps : List Lap) (t : ℚ) : Option Lap :=
  match laps with
  | [] => none
  | l :: rest => if l.start ≤ t then some ((tyreScan rest t).getD l) else none

/-- telemetry_loader.py lines 82-85: compound of the scanned lap, or the
string UNK when no lap has started yet. -/
def tyreAt (laps : List Lap) (t : ℚ) : String :=
  match tyreScan laps t with
  | none => "UNK"
  | some l => l.compound

/-- telemetry_loader.py lines 98 and 104: the frame
laps[laps.LapStartTime <= t] and its last row. -/
def lapMatch (laps : List Lap) (t : ℚ) : Option Lap :=
  (laps.filter (fun l => decide (l.start ≤ t))).getLast?

/-- telemetry_loader.py lines 99-105: lap number 0 before the first
lap, else the LapNumber of the matched row. -/
def lapNumberAt (laps : List Lap) (t : ℚ) : Nat :=
  match lapMatch laps t with
  | none => 0
  | some l => l.number

/-- telemetry_loader.py lines 99-117: sector times (0,0,0) before the
first lap, else the matched row's sector durations. -/
def sectorsAt (laps : List Lap) (t : ℚ) : ℚ × ℚ × ℚ :=
  match lapMatch laps t with
  | none => (0, 0, 0)
  | some l => (l.s1, l.s2, l.s3)

/-- Channels of the series built by load_race_telemetry (lines 44-117)
from one driver's raw position timestamps and laps frame.  The
per-sample scans run on the absolute sorted timestamps, exactly as in
the source; only the stored time axis is rebased. -/
structure BuiltSeries where
  times : List ℚ
  tyres : List String
  lap_numbers : List Nat
  sectors : List (ℚ × ℚ × ℚ)

def buildSeries (raw : List ℚ) (laps : List Lap) : BuiltSeries :=
  { times := rebase (sortTimestamps raw)
    tyres := (sortTimestamps raw).map (tyreAt laps)
    lap_numbers := (sortTimestamps raw).map (lapNumberAt laps)
    sectors := (sortTimestamps raw).map (sectorsAt laps) }

/-! ## Per-driver processing and session assembly (replay.py lines
159-280 and 412-469) -/

/-- One car_data row: SessionTime and the speed channel; the other
numeric channels are carried the same way and elide nothing the session
claims read. -/
structure CarRow where
  t : ℚ
  speed : ℚ

/-- One pos_data row: SessionTime and track-plane X, Y. -/
structure PosRow where
  t : ℚ
  x : ℚ
  y : ℚ

/-- One merged telemetry row, tagged with its lap number as in
replay.py line 201. -/
structure MergedRow where
  t : ℚ
  speed : ℚ
  x : ℚ
  y : ℚ
  lap : Nat

/-- pandas merge_asof on SessionTime with direction nearest (ties to the
first minimiser) used in replay.py lines 189-195. -/
def nearestPosRow (pos : List PosRow) (t : ℚ) : Option PosRow :=
  pos.foldl (fun best p =>
    match best with
    | none => some p
    | some q => if |p.t - t| < |q.t - t| then some p else some q) none

/-- merge_asof with tolerance 100 ms followed by the dropna on X and Y
of replay.py line 198: each car row is joined to the pos row nearest in
time, and dropped when no pos row lies within 1/10 s. -/
def mergeAsof (car : List CarRow) (pos : List PosRow) (lap : Nat) : List MergedRow :=
  car.filterMap fun c =>
    match nearestPosRow pos c.t with
    | none => none
    | some p =>
      if |p.t - c.t| ≤ 1 / 10 then some ⟨c.t, c.speed, p.x, p.y, lap⟩ else none

/-- One lap of a driver's raw batch: its number and its car and pos
frames. -/
structure RawLap where
  number : Nat
  carRows : List CarRow
  posRows : List PosRow

/-- Per-lap body of the loop in replay.py lines 174-203: a lap whose
car or pos frame is empty is skipped; every other lap contributes its
merged telemetry, possibly zero rows, to merged_all. -/
def processLap (lap : RawLap) : Option (List MergedRow) :=
  if lap.carRows.isEmpty || lap.posRows.isEmpty then none
  else
    some (mergeAsof (lap.carRows.insertionSort (fun a b => a.t ≤ b.t))
      (lap.posRows.insertionSort (fun a b => a.t ≤ b.t)) lap.number)

/-- Channels of the trace object built by process_driver that the
session-assembly claims read (replay.py lines 262-274). -/
structure ProcessedTrace where
  times : List ℚ
  positions : List (ℚ × ℚ)
  speeds : List ℚ
  lap_numbers : List Nat

/-- Row ordering of replay.py lines 212-213: concatenated lap telemetry
sorted by SessionTime; it feeds the trace construction of lines
262-274, which raises before completing (see processDriverTry). -/
def telRows (batch : List RawLap) : List MergedRow :=
  ((batch.filterMap processLap).flatten).insertionSort (fun a b => a.t ≤ b.t)

/-- Possible outcomes of the try block of process_driver: the none
result returned at replay.py lines 167 and 207, an exception raised
inside the block, or a completed trace construction. -/
inductive ProcessOutcome where
  | noneResult : ProcessOutcome
  | raised : String → ProcessOutcome
  | built : ProcessedTrace → ProcessOutcome

/-- Try block of process_driver (replay.py lines 160-276): the none
result when the driver has no laps (line 166) or when every lap was
skipped for an empty car or pos frame (line 205); otherwise control
reaches the DriverTrace construction of lines 262-274, which passes
the keyword distances that the dataclass of telemetry_loader.py lines
9-20 does not declare, so Python raises TypeError there and the built
outcome is never produced. -/
def processDriverTry (batch : List RawLap) : ProcessOutcome :=
  if batch.isEmpty then ProcessOutcome.noneResult
  else if (batch.filterMap processLap).isEmpty then ProcessOutcome.noneResult
  else ProcessOutcome.raised "TypeError: unexpected keyword argument distances"

/-- process_driver (replay.py lines 159-280): the try block wrapped in
the except handler of lines 278-280, which turns every exception into
the none result. -/
def process_driver (batch : List RawLap) : Option ProcessedTrace :=
  match processDriverTry batch with
  | ProcessOutcome.noneResult => none
  | ProcessOutcome.raised _ => none
  | ProcessOutcome.built tr => some tr

/-- Loader of run_replay (lines 421-431): one traces map entry per
driver whose process_driver result is not None. -/
def loadTraces (entities : List (String × List RawLap)) :
    List (String × ProcessedTrace) :=
  entities.filterMap fun e => (process_driver e.2).map (fun tr => (e.1, tr))

/-- run_replay lines 447-451: playback starts only when the traces map
is non-empty. -/
def sessionStarts (entities : List (String × List RawLap)) : Bool :=
  !(loadTraces entities).isEmpty

lemma bisectLoop_spec (a : List ℚ) (x : ℚ)
    (hmono : ∀ i j, i ≤ j → j < a.length → a.getD i 0 ≤ a.getD j 0) :
    ∀ fuel lo hi, hi - lo ≤ fuel → lo ≤ hi → hi ≤ a.length →
      (∀ i, i < lo → a.getD i 0 ≤ x) →
      (∀ i, hi ≤ i → i < a.length → x < a.getD i 0) →
      lo ≤ bisectLoop fuel a x lo hi ∧ bisectLoop fuel a x lo hi ≤ hi ∧
      (∀ i, i < bisectLoop fuel a x lo hi → a.getD i 0 ≤ x) ∧
      (∀ i, bisectLoop fuel a x lo hi ≤ i → i < a.length → x < a.getD i 0) := by
  intro fuel
  induction fuel with
  | zero =>
    intro lo hi hfuel hlohi _ hlow hhigh
    have heq : lo = hi := by omega
    subst heq
    exact ⟨le_refl _, le_refl _, hlow, hhigh⟩
  | succ fuel ih =>
    intro lo hi hfuel hlohi hlen hlow hhigh
    by_cases h : lo < hi
    · have hmid1 : lo ≤ (lo + hi) / 2 := by omega
      have hmid2 : (lo + hi) / 2 < hi := by omega
      rw [bisectLoop, if_pos h]
      by_cases hx : x < a.getD ((lo + hi) / 2) 0
      · rw [if_pos hx]
        have hrec := ih lo ((lo + hi) / 2) (by omega) hmid1 (le_trans (le_of_lt hmid2) hlen)
          hlow (fun i h1 h2 => lt_of_lt_of_le hx (hmono _ i h1 h2))
        exact ⟨hrec.1, le_trans hrec.2.1 (le_of_lt hmid2), hrec.2.2⟩
      · rw [if_neg hx]
        push_neg at hx
        have hlow' : ∀ i, i < (lo + hi) / 2 + 1 → a.getD i 0 ≤ x := by
          intro i hi2
          exact le_trans (hmono i ((lo + hi) / 2) (by omega) (lt_of_lt_of_le hmid2 hlen)) hx
        have hrec := ih ((lo + hi) / 2 + 1) hi (by omega) (by omega) hlen hlow' hhigh
        exact ⟨le_trans (by omega) hrec.1, hrec.2⟩
    · have heq : lo = hi := by omega
      subst heq
      rw [bisectLoop, if_neg h]
      exact ⟨le_refl _, le_refl _, hlow, hhigh⟩

lemma sorted_getD_mono (a : List ℚ) (hs : a.Sorted (· ≤ ·)) :
    ∀ i j, i ≤ j → j < a.length → a.getD i 0 ≤ a.getD j 0 := by
  intro i j hij hj
  rcases Nat.eq_or_lt_of_le hij with heq | hlt
  · subst heq; exact le_refl _
  · have hi : i < a.length := lt_trans hlt hj
    rw [List.getD_eq_getElem a 0 hi, List.getD_eq_getElem a 0 hj]
    exact List.pairwise_iff_getElem.mp hs i j hi hj hlt

lemma bisect_right_spec (a : List ℚ) (x : ℚ) (hsort : a.Sorted (· ≤ ·)) :
    (∀ i, i < bisect_right a x → a.getD i 0 ≤ x) ∧
    (∀ i, bisect_right a x ≤ i → i < a.length → x < a.getD i 0) ∧
    bisect_right a x ≤ a.length := by
  have h := bisectLoop_spec a x (sorted_getD_mono a hsort) (a.length + 1) 0 a.length
    (by omega) (Nat.zero_le _) (le_refl _)
    (fun i hi => absurd hi (Nat.not_lt_zero i)) (fun i h1 h2 => absurd h2 (by omega))
  exact ⟨h.2.2.1, h.2.2.2, h.2.1⟩

/-- C2: for every non-empty series with sorted times and every query time,
the index resolved in replay.py lines 518-520 is the greatest index i with
samples[i].t less than or equal to the query; it is 0 when the query
precedes the first sample and len - 1 when the query is at or beyond the
last sample. -/
theorem resolveIndex_correct (a : List ℚ) (x : ℚ) (hne : a ≠ [])
    (hsort : a.Sorted (· ≤ ·)) :
    resolveIndex a x < a.length ∧
    (a.getD 0 0 ≤ x →
      a.getD (resolveIndex a x) 0 ≤ x ∧
      ∀ i, i < a.length → a.getD i 0 ≤ x → i ≤ resolveIndex a x) ∧
    (x < a.getD 0 0 → resolveIndex a x = 0) ∧
    (a.getD (a.length - 1) 0 ≤ x → resolveIndex a x = a.length - 1) := by
  obtain ⟨hle, hgt, hlen⟩ := bisect_right_spec a x hsort
  have hpos : 0 < a.length := List.length_pos.mpr hne
  refine ⟨?_, ?_, ?_, ?_⟩
  · unfold resolveIndex
    omega
  · intro h0
    have hr : 1 ≤ bisect_right a x := by
      by_contra hc
      push_neg at hc
      exact absurd (hgt 0 (by omega) hpos) (not_lt.mpr h0)
    constructor
    · have : bisect_right a x - 1 < bisect_right a x := by omega
      exact hle _ this
    · intro i hi hix
      have : i < bisect_right a x := by
        by_contra hc
        push_neg at hc
        exact absurd (hgt i hc hi) (not_lt.mpr hix)
      unfold resolveIndex
      omega
  · intro hx0
    have : bisect_right a x ≤ 1 := by
      by_contra hc
      push_neg at hc
      exact absurd (hle 0 (by omega)) (not_le.mpr hx0)
    unfold resolveIndex
    omega
  · intro hlast
    have : a.length ≤ bisect_right a x := by
      by_contra hc
      push_neg at hc
      exact absurd (hgt (a.length - 1) (by omega) (by omega)) (not_lt.mpr hlast)
    unfold resolveIndex
    omega

/-- Witness for C2 at the spec scenarios A and B: times [0,1,2,3] with
queries 3/2, -1 and 100. -/
theorem resolveIndex_correct_witness :
    (resolveIndex [0, 1, 2, 3] (3 / 2) = 1 ∧
     resolveIndex [0, 1, 2, 3] (-1) = 0 ∧
     resolveIndex [0, 1, 2, 3] 100 = 3) ∧
    (resolveIndex [0, 1, 2, 3] (3 / 2) < ([0, 1, 2, 3] : List ℚ).length ∧
      (([0, 1, 2, 3] : List ℚ).getD 0 0 ≤ 3 / 2 →
        ([0, 1, 2, 3] : List ℚ).getD (resolveIndex [0, 1, 2, 3] (3 / 2)) 0 ≤ 3 / 2 ∧
        ∀ i, i < ([0, 1, 2, 3] : List ℚ).length →
          ([0, 1, 2, 3] : List ℚ).getD i 0 ≤ 3 / 2 → i ≤ resolveIndex [0, 1, 2, 3] (3 / 2)) ∧
      (3 / 2 < ([0, 1, 2, 3] : List ℚ).getD 0 0 → resolveIndex [0, 1, 2, 3] (3 / 2) = 0) ∧
      (([0, 1, 2, 3] : List ℚ).getD (([0, 1, 2, 3] : List ℚ).length - 1) 0 ≤ 3 / 2 →
        resolveIndex [0, 1, 2, 3] (3 / 2) = ([0, 1, 2, 3] : List ℚ).length - 1)) :=
  ⟨by norm_num [resolveIndex, bisect_right, bisectLoop],
   resolveIndex_correct [0, 1, 2, 3] (3 / 2) (by decide) (by decide)⟩

lemma stepClock_invariant (minT maxT : ℚ) (s : ClockState)
    (hmm : minT ≤ maxT)
    (hs1 : minT ≤ s.current_time) (hs2 : s.current_time ≤ maxT)
    (op : ClockOp) (hop : validOp op = true) :
    minT ≤ (stepClock minT maxT s op).current_time ∧
    (stepClock minT maxT s op).current_time ≤ maxT := by
  cases op with
  | adv dt rate =>
    simp only [validOp, Bool.and_eq_true, decide_eq_true_eq] at hop
    simp only [stepClock]
    by_cases hp : s.paused
    · simp [hp, hs1, hs2]
    · simp only [hp, if_false, Bool.false_eq_true]
      by_cases hc : maxT ≤ s.current_time + dt * rate
      · simp [hc, hmm]
      · simp only [hc, if_false]
        refine ⟨le_trans hs1 ?_, le_of_lt (not_le.mp hc)⟩
        have : 0 ≤ dt * rate := mul_nonneg hop.1 (le_of_lt hop.2)
        linarith
  | seekF =>
    simp only [stepClock]
    exact ⟨le_min hmm (by linarith), min_le_left _ _⟩
  | seekB =>
    simp only [stepClock]
    exact ⟨le_max_left _ _, max_le hmm (by linarith)⟩

lemma runClock_aux (minT maxT : ℚ) (hmm : minT ≤ maxT) :
    ∀ ops : List ClockOp, ∀ s : ClockState,
      minT ≤ s.current_time → s.current_time ≤ maxT →
      (∀ op ∈ ops, validOp op = true) →
      minT ≤ (ops.foldl (stepClock minT maxT) s).current_time ∧
      (ops.foldl (stepClock minT maxT) s).current_time ≤ maxT := by
  intro ops
  induction ops with
  | nil => intro s h1 h2 _; exact ⟨h1, h2⟩
  | cons op rest ih =>
    intro s h1 h2 hv
    have hstep := stepClock_invariant minT maxT s hmm h1 h2 op (hv op (List.mem_cons_self op rest))
    exact ih _ hstep.1 hstep.2 (fun o ho => hv o (List.mem_cons_of_mem op ho))

/-- C3: starting from current_time = min_t, every sequence of advances
(non-negative wall dt, positive rate) and seeks keeps current_time inside
[min_t, max_t]; and an advance whose result is max_t leaves the clock
paused. -/
theorem clock_clamped (minT maxT : ℚ) (hmm : minT ≤ maxT)
    (ops : List ClockOp) (hv : ∀ op ∈ ops, validOp op = true) :
    (minT ≤ (runClock minT maxT ops).current_time ∧
     (runClock minT maxT ops).current_time ≤ maxT) ∧
    (∀ s : ClockState, ∀ dt rate : ℚ,
      (stepClock minT maxT s (ClockOp.adv dt rate)).current_time = maxT →
      (stepClock minT maxT s (ClockOp.adv dt rate)).paused = true) := by
  constructor
  · exact runClock_aux minT maxT hmm ops ⟨minT, false⟩ (le_refl _) hmm hv
  · intro s dt rate hct
    simp only [stepClock] at hct ⊢
    by_cases hp : s.paused
    · simp [hp]
    · simp only [hp, if_false, Bool.false_eq_true] at hct ⊢
      by_cases hc : maxT ≤ s.current_time + dt * rate
      · simp [hc]
      · simp only [hc, if_false] at hct
        exact absurd (le_of_eq hct.symm) hc

/-- Witness for C3: min_t = 0, max_t = 10, operations advance by 1 s at
rate 2, seek forward, seek backward. -/
theorem clock_clamped_witness :
    ((0 : ℚ) ≤ (runClock 0 10 [ClockOp.adv 1 2, ClockOp.seekF, ClockOp.seekB]).current_time ∧
     (runClock 0 10 [ClockOp.adv 1 2, ClockOp.seekF, ClockOp.seekB]).current_time ≤ 10) ∧
    (∀ s : ClockState, ∀ dt rate : ℚ,
      (stepClock 0 10 s (ClockOp.adv dt rate)).current_time = 10 →
      (stepClock 0 10 s (ClockOp.adv dt rate)).paused = true) :=
  clock_clamped 0 10 (by norm_num) [ClockOp.adv 1 2, ClockOp.seekF, ClockOp.seekB]
    (by intro op hop; fin_cases hop <;> decide)

/-- C1 counterexample: with every index resolved to 0, driver A on lap 2
at cumulative distance 100 ranks behind driver B on lap 1 at distance
200, so the order is not descending (lap_number, cumulative_distance);
and two equal-progress drivers keep the trace map insertion order Z
before A instead of ascending entity id. -/
theorem ranking_ignores_lap_counterexample :
    (compute_ranking_data [("A", trA), ("B", trB)] [("A", 0), ("B", 0)]).map
        (fun l => l.map RankEntry.code) = Except.ok ["B", "A"] ∧
    trA.lap_numbers.getD 0 0 = 2 ∧ trB.lap_numbers.getD 0 0 = 1 ∧
    (compute_ranking_data [("Z", trZ), ("A", trC)] [("Z", 0), ("A", 0)]).map
        (fun l => l.map RankEntry.code) = Except.ok ["Z", "A"] := by
  refine ⟨?_, rfl, rfl, ?_⟩ <;> rfl

/-- C1 amended: compute_ranking_data orders the eligible entries by
descending cumulative distance at the resolved index alone (lap numbers
play no role): its output is mkOut of a permutation of the rows on
which the progress values are non-increasing. -/
theorem compute_ranking_sorted_by_progress
    (traces : List (String × DriverTrace)) (indices : List (String × Nat))
    (rows : List RankRow) (h : rankRows traces indices = Except.ok rows) :
    compute_ranking_data traces indices = Except.ok (mkOut (sortRows rows)) ∧
    ((sortRows rows).map RankRow.progress).Sorted (fun a b : ℚ => b ≤ a) ∧
    List.Perm (sortRows rows) rows := by
  refine ⟨by simp [compute_ranking_data, h, Except.map], ?_, List.perm_insertionSort _ _⟩
  exact List.Pairwise.map _ (fun a b hab => hab) (List.sorted_insertionSort rankRel rows)

/-- Witness for the amended C1 at the two-driver counterexample input. -/
theorem compute_ranking_sorted_by_progress_witness :
    compute_ranking_data [("A", trA), ("B", trB)] [("A", 0), ("B", 0)] =
      Except.ok (mkOut (sortRows [⟨"A", 100, 2, "SOFT", 100⟩, ⟨"B", 200, 1, "SOFT", 100⟩])) ∧
    ((sortRows [⟨"A", 100, 2, "SOFT", 100⟩, ⟨"B", 200, 1, "SOFT", 100⟩]).map
        RankRow.progress).Sorted (fun a b : ℚ => b ≤ a) ∧
    List.Perm (sortRows [⟨"A", 100, 2, "SOFT", 100⟩, ⟨"B", 200, 1, "SOFT", 100⟩])
      [⟨"A", 100, 2, "SOFT", 100⟩, ⟨"B", 200, 1, "SOFT", 100⟩] :=
  compute_ranking_sorted_by_progress [("A", trA), ("B", trB)] [("A", 0), ("B", 0)]
    [⟨"A", 100, 2, "SOFT", 100⟩, ⟨"B", 200, 1, "SOFT", 100⟩] rfl

lemma mkOutGo_gap (l : List RankRow) :
    ∀ (p : Nat) (prev : RankRow) (i : Nat) (ahead cur : RankRow),
      (prev :: l).get? i = some ahead → l.get? i = some cur →
      ∃ e, (mkOutGo p prev l).get? i = some e ∧
        e.gap_to_ahead = some (gapF ahead cur) ∧ e.code = cur.code ∧
        e.position = p + i := by
  induction l with
  | nil =>
    intro p prev i ahead cur _ hcur
    simp at hcur
  | cons head rest ih =>
    intro p prev i ahead cur hahead hcur
    cases i with
    | zero =>
      simp only [List.get?_cons_zero, Option.some_inj] at hahead hcur
      subst hahead; subst hcur
      exact ⟨_, rfl, rfl, rfl, rfl⟩
    | succ n =>
      simp only [List.get?_cons_succ] at hahead hcur
      obtain ⟨e, he1, he2, he3, he4⟩ := ih (p + 1) head n ahead cur hahead hcur
      refine ⟨e, ?_, he2, he3, by omega⟩
      simpa [mkOutGo] using he1

/-- C7: every non-leader entry of compute_ranking_data carries a
gap_to_ahead equal to (progress(ahead) - progress(self)) divided by
max(10, ahead_speed_kmh / 3.6), the row ahead being the previous one in
the progress-sorted order. -/
theorem gap_to_ahead_formula
    (traces : List (String × DriverTrace)) (indices : List (String × Nat))
    (rows : List RankRow) (h : rankRows traces indices = Except.ok rows)
    (i : Nat) (ahead cur : RankRow)
    (ha : (sortRows rows).get? i = some ahead)
    (hc : (sortRows rows).get? (i + 1) = some cur) :
    ∃ out, compute_ranking_data traces indices = Except.ok out ∧
      ∃ e, out.get? (i + 1) = some e ∧
        e.gap_to_ahead =
          some ((ahead.progress - cur.progress) / max 10 (ahead.speed / 3.6)) ∧
        e.code = cur.code := by
  refine ⟨mkOut (sortRows rows), by simp [compute_ranking_data, h, Except.map], ?_⟩
  cases hs : sortRows rows with
  | nil => rw [hs] at ha; simp at ha
  | cons r0 rest =>
    rw [hs] at ha hc
    simp only [List.get?_cons_succ] at hc
    obtain ⟨e, he1, he2, he3, _⟩ := mkOutGo_gap rest 2 r0 i ahead cur ha hc
    refine ⟨e, ?_, he2, he3⟩
    simp only [mkOut, List.get?_cons_succ]
    exact he1

/-- Witness for C7 at the spec scenario C: the car ahead at distance 500
and 200 km/h, self at 480, gives a gap of exactly 9/25 = 0.36 s. -/
theorem gap_to_ahead_formula_witness :
    (∃ out, compute_ranking_data
        [("A", ⟨[0], [200], ["SOFT"], [500], [3]⟩), ("B", ⟨[0], [150], ["SOFT"], [480], [3]⟩)]
        [("A", 0), ("B", 0)] = Except.ok out ∧
      ∃ e, out.get? 1 = some e ∧
        e.gap_to_ahead =
          some (((500 : ℚ) - 480) / max 10 (200 / 3.6)) ∧
        e.code = "B") ∧
    ((500 : ℚ) - 480) / max 10 (200 / (3.6 : ℚ)) = 9 / 25 :=
  ⟨gap_to_ahead_formula
      [("A", ⟨[0], [200], ["SOFT"], [500], [3]⟩), ("B", ⟨[0], [150], ["SOFT"], [480], [3]⟩)]
      [("A", 0), ("B", 0)]
      [⟨"A", 500, 3, "SOFT", 200⟩, ⟨"B", 480, 3, "SOFT", 150⟩] rfl
      0 ⟨"A", 500, 3, "SOFT", 200⟩ ⟨"B", 480, 3, "SOFT", 150⟩ rfl rfl,
   by rw [show (3.6 : ℚ) = 18 / 5 by norm_num]; norm_num [max_eq_right]⟩

lemma pyGet_ok {α : Type} (l : List α) (i : Nat) (h : i < l.length) :
    ∃ v, pyGet l i = Except.ok v := by
  unfold pyGet
  cases hg : l.get? i with
  | none =>
    rw [List.get?_eq_none] at hg
    omega
  | some v => exact ⟨v, rfl⟩

lemma rankRows_ok (traces : List (String × DriverTrace)) (indices : List (String × Nat))
    (hwf : ∀ p ∈ traces, WFTrace p.2) :
    ∃ rows, rankRows traces indices = Except.ok rows ∧ rows.length ≤ traces.length := by
  induction traces with
  | nil => exact ⟨[], rfl, le_refl _⟩
  | cons p rest ih =>
    obtain ⟨code, tr⟩ := p
    obtain ⟨rows, hrows, hlen⟩ := ih (fun q hq => hwf q (List.mem_cons_of_mem _ hq))
    have hwf0 := hwf (code, tr) (List.mem_cons_self _ _)
    by_cases hidx : tr.distances.length ≤ (indices.lookup code).getD 0
    · refine ⟨rows, ?_, ?_⟩
      · simp only [rankRows, if_pos hidx]
        exact hrows
      · simp only [List.length_cons]
        omega
    · push_neg at hidx
      obtain ⟨v1, hv1⟩ := pyGet_ok tr.distances _ hidx
      obtain ⟨v2, hv2⟩ := pyGet_ok tr.lap_numbers _ (lt_of_lt_of_le hidx hwf0.1)
      obtain ⟨v3, hv3⟩ := pyGet_ok tr.tyres _ (lt_of_lt_of_le hidx hwf0.2.1)
      obtain ⟨v4, hv4⟩ := pyGet_ok tr.speeds _ (lt_of_lt_of_le hidx hwf0.2.2)
      refine ⟨⟨code, v1, v2, v3, v4⟩ :: rows, ?_, ?_⟩
      · simp only [rankRows, if_neg (not_le.mpr hidx)]
        rw [hv1, hv2, hv3, hv4, hrows]
        rfl
      · simp only [List.length_cons]
        omega

lemma mkOutGo_positions (l : List RankRow) :
    ∀ (p : Nat) (prev : RankRow),
      (mkOutGo p prev l).map RankEntry.position = List.range' p l.length := by
  induction l with
  | nil => intro p prev; simp [mkOutGo]
  | cons head rest ih =>
    intro p prev
    simp [mkOutGo, ih, List.range'_succ]

lemma mkOut_positions (l : List RankRow) :
    (mkOut l).map RankEntry.position = List.range' 1 l.length := by
  cases l with
  | nil => simp [mkOut]
  | cons r0 rest => simp [mkOut, mkOutGo_positions, List.range'_succ]

lemma mkOut_length (l : List RankRow) : (mkOut l).length = l.length := by
  have h := congrArg List.length (mkOut_positions l)
  simpa using h

lemma lookup_zero (idx0 : List (String × Nat)) (h : ∀ q ∈ idx0, q.2 = 0) (code : String) :
    (idx0.lookup code).getD 0 = 0 := by
  induction idx0 with
  | nil => rfl
  | cons q rest ih =>
    obtain ⟨a, b⟩ := q
    by_cases hc : code = a
    · have hb : b = 0 := h (a, b) (List.mem_cons_self _ _)
      simp [List.lookup, hc, hb]
    · have hbeq : (code == a) = false := beq_eq_false_iff_ne.mpr hc
      simp only [List.lookup, hbeq]
      exact ih (fun q hq => h q (List.mem_cons_of_mem _ hq))

lemma rankRows_zero (traces : List (String × DriverTrace)) (idx0 : List (String × Nat))
    (h : ∀ q ∈ idx0, q.2 = 0) :
    rankRows traces idx0 = rankRows traces [] := by
  induction traces with
  | nil => rfl
  | cons p rest ih =>
    obtain ⟨code, tr⟩ := p
    simp only [rankRows, lookup_zero idx0 h code, List.lookup_nil, Option.getD_none, ih]

/-- C10 amended: the guard of replay.py line 117 protects only the
distances access, so the ranking never errors, for any index map, only
for traces whose other channel lists are at least as long as their
distances list; then an entity missing from the map resolves to index
0, an out-of-range index silently drops its entity, the output may
hence be shorter than the trace map, and the position fields are
exactly 1..k.  Without that precondition the ranking raises, see the
counterexample. -/
theorem ranking_total_safe (traces : List (String × DriverTrace))
    (indices : List (String × Nat)) (hwf : ∀ p ∈ traces, WFTrace p.2) :
    (∃ out, compute_ranking_data traces indices = Except.ok out ∧
      out.length ≤ traces.length ∧
      out.map RankEntry.position = List.range' 1 out.length) ∧
    (∀ idx0 : List (String × Nat), (∀ q ∈ idx0, q.2 = 0) →
      rankRows traces idx0 = rankRows traces []) := by
  refine ⟨?_, fun idx0 h0 => rankRows_zero traces idx0 h0⟩
  obtain ⟨rows, hrows, hlen⟩ := rankRows_ok traces indices hwf
  refine ⟨mkOut (sortRows rows), by simp [compute_ranking_data, hrows, Except.map], ?_, ?_⟩
  · rw [mkOut_length]
    calc (sortRows rows).length = rows.length := (List.perm_insertionSort _ _).length_eq
    _ ≤ traces.length := hlen
  · rw [mkOut_positions, mkOut_length]

/-- Witness for C10: one well-formed trace and an index map that does
not mention it. -/
theorem ranking_total_safe_witness :
    (∃ out, compute_ranking_data [("A", trA)] [("B", 5)] = Except.ok out ∧
      out.length ≤ ([("A", trA)] : List (String × DriverTrace)).length ∧
      out.map RankEntry.position = List.range' 1 out.length) ∧
    (∀ idx0 : List (String × Nat), (∀ q ∈ idx0, q.2 = 0) →
      rankRows [("A", trA)] idx0 = rankRows [("A", trA)] []) :=
  ranking_total_safe [("A", trA)] [("B", 5)]
    (by intro p hp; fin_cases hp; exact ⟨le_refl _, le_refl _, le_refl _⟩)

lemma sortTimestamps_sorted (raw : List ℚ) :
    (sortTimestamps raw).Sorted (fun a b : ℚ => a ≤ b) :=
  List.sorted_insertionSort _ raw

lemma sortTimestamps_perm (raw : List ℚ) : List.Perm (sortTimestamps raw) raw :=
  List.perm_insertionSort _ raw

lemma sortTimestamps_strict (raw : List ℚ) (h : raw.Nodup) :
    List.Chain' (fun a b : ℚ => a < b) (sortTimestamps raw) := by
  have hs : List.Pairwise (fun a b : ℚ => a ≤ b) (sortTimestamps raw) :=
    sortTimestamps_sorted raw
  have hn : (sortTimestamps raw).Nodup := ((sortTimestamps_perm raw).nodup_iff).mpr h
  exact ((hs.and hn).imp (fun h2 => lt_of_le_of_ne h2.1 h2.2)).chain'

lemma rebase_chain_le (ts : List ℚ) (h : List.Chain' (fun a b : ℚ => a ≤ b) ts) :
    List.Chain' (fun a b : ℚ => a ≤ b) (rebase ts) := by
  unfold rebase
  rw [List.chain'_map]
  exact h.imp (fun a b hab => sub_le_sub_right hab _)

lemma rebase_chain_lt (ts : List ℚ) (h : List.Chain' (fun a b : ℚ => a < b) ts) :
    List.Chain' (fun a b : ℚ => a < b) (rebase ts) := by
  unfold rebase
  rw [List.chain'_map]
  exact h.imp (fun a b hab => sub_lt_sub_right hab _)

lemma mathDist_nonneg (p q : ℚ × ℚ) : 0 ≤ mathDist p q := Real.sqrt_nonneg _

lemma cumDistGo_chain (ps : List (ℚ × ℚ)) :
    ∀ (prev : ℚ × ℚ) (acc : ℝ),
      List.Chain' (fun a b : ℝ => a ≤ b) (acc :: cumDistGo prev acc ps) := by
  induction ps with
  | nil => intro prev acc; simp [cumDistGo]
  | cons p rest ih =>
    intro prev acc
    rw [cumDistGo, List.chain'_cons]
    exact ⟨le_add_of_nonneg_right (mathDist_nonneg prev p), ih p _⟩

lemma cumDistances_chain (ps : List (ℚ × ℚ)) :
    List.Chain' (fun a b : ℝ => a ≤ b) (cumDistances ps) := by
  cases ps with
  | nil => simp [cumDistances]
  | cons p rest => exact cumDistGo_chain rest p 0

/-- C5 counterexample: the raw batch with duplicate timestamps [0,0,1]
builds to three samples, not two: no de-duplication happens in either
builder. -/
theorem no_dedup_counterexample :
    (buildSeries [0, 0, 1] []).times = [0, 0, 1] ∧
    (buildSeries [0, 0, 1] []).times.length = 3 ∧
    processTimes [0, 0, 1] = [0, 0, 1] := by
  refine ⟨?_, ?_, by decide⟩ <;>
    norm_num [buildSeries, rebase, sortTimestamps, List.insertionSort, List.orderedInsert]

/-- C5 amended: the builders keep every raw timestamp, duplicates
included: sorting only permutes the batch and both built time axes have
the length of the raw batch. -/
theorem build_keeps_duplicates (raw : List ℚ) (laps : List Lap) :
    List.Perm (sortTimestamps raw) raw ∧
    (buildSeries raw laps).times.length = raw.length ∧
    (processTimes raw).length = raw.length := by
  refine ⟨sortTimestamps_perm raw, ?_, (sortTimestamps_perm raw).length_eq⟩
  simp [buildSeries, rebase, (sortTimestamps_perm raw).length_eq]

/-- C6 counterexample: process_driver, the builder run_replay uses,
keeps absolute session seconds: the raw batch [10, 11] builds to the
time axis [10, 11], whose first entry is not 0, while the
load_race_telemetry axis would be [0, 1]. -/
theorem replay_times_not_rebased_counterexample :
    processTimes [10, 11] = [10, 11] ∧
    processTimes [10, 11] ≠ [0, 1] ∧
    (buildSeries [10, 11] []).times = [0, 1] := by
  refine ⟨by decide, by decide, ?_⟩
  norm_num [buildSeries, rebase, sortTimestamps, List.insertionSort, List.orderedInsert]

/-- C6 amended: load_race_telemetry rebases: its built time axis starts
at 0 and its i-th entry is the i-th sorted raw timestamp minus the
first one; process_driver, which run_replay actually uses, keeps the
sorted raw timestamps unchanged. -/
theorem loader_rebase_amended (raw : List ℚ) (laps : List Lap) (hne : raw ≠ []) :
    (buildSeries raw laps).times.get? 0 = some 0 ∧
    (∀ i, i < raw.length →
      (buildSeries raw laps).times.get? i =
        some ((sortTimestamps raw).getD i 0 - (sortTimestamps raw).getD 0 0)) ∧
    processTimes raw = sortTimestamps raw := by
  have hlen : (sortTimestamps raw).length = raw.length := (sortTimestamps_perm raw).length_eq
  have hne2 : sortTimestamps raw ≠ [] := by
    intro hc
    rw [hc] at hlen
    exact hne (List.length_eq_zero.mp hlen.symm)
  obtain ⟨a, l, hts⟩ : ∃ a l, sortTimestamps raw = a :: l := by
    cases hts : sortTimestamps raw with
    | nil => exact absurd hts hne2
    | cons a l => exact ⟨a, l, rfl⟩
  refine ⟨?_, ?_, rfl⟩
  · simp [buildSeries, rebase, hts]
  · intro i hi
    have hi2 : i < (a :: l).length := by
      rw [hts] at hlen
      omega
    simp only [buildSeries, rebase, hts, List.headD_cons]
    rw [List.get?_eq_getElem?, List.getElem?_map, List.getElem?_eq_getElem hi2,
      List.getD_eq_getElem _ _ hi2,
      List.getD_eq_getElem _ _ (by simp : 0 < (a :: l).length)]
    simp

/-- Witness for the amended C6 at the raw batch [10, 11]. -/
theorem loader_rebase_amended_witness :
    ((buildSeries [10, 11] []).times.get? 0 = some 0 ∧
    (∀ i, i < ([10, 11] : List ℚ).length →
      (buildSeries [10, 11] []).times.get? i =
        some ((sortTimestamps [10, 11]).getD i 0 - (sortTimestamps [10, 11]).getD 0 0)) ∧
    processTimes [10, 11] = sortTimestamps [10, 11]) ∧
    (buildSeries [10, 11] []).times = [0, 1] :=
  ⟨loader_rebase_amended [10, 11] [] (by decide),
   by norm_num [buildSeries, rebase, sortTimestamps, List.insertionSort, List.orderedInsert]⟩

lemma lapMatch_none_of_forall (laps : List Lap) (t : ℚ)
    (h : ∀ l ∈ laps, ¬ l.start ≤ t) : lapMatch laps t = none := by
  unfold lapMatch
  rw [List.getLast?_eq_none_iff, List.filter_eq_nil_iff]
  intro a ha
  simpa using h a ha

lemma lapMatch_some (laps : List Lap) (t : ℚ) (l : Lap)
    (h : lapMatch laps t = some l) : l ∈ laps ∧ l.start ≤ t := by
  unfold lapMatch at h
  have hmem : l ∈ laps.filter (fun l2 => decide (l2.start ≤ t)) :=
    List.mem_of_mem_getLast? (Option.mem_def.mpr h)
  have h2 := List.mem_filter.mp hmem
  exact ⟨h2.1, by simpa using h2.2⟩

lemma lapMatch_ne_none (laps : List Lap) (u : ℚ) (l : Lap)
    (hmem : l ∈ laps) (hle : l.start ≤ u) : lapMatch laps u ≠ none := by
  unfold lapMatch
  rw [Ne, List.getLast?_eq_none_iff, List.filter_eq_nil_iff]
  intro hnil
  exact absurd (by simpa using hle) (by simpa using hnil l hmem)

lemma getLast?_cons_of_ne_nil {α : Type} (a : α) (xs : List α) (h : xs ≠ []) :
    (a :: xs).getLast? = xs.getLast? := by
  cases xs with
  | nil => exact absurd rfl h
  | cons b l => exact List.getLast?_cons_cons

lemma lapMatch_cons_pos (l : Lap) (rest : List Lap) (t : ℚ) (hl : l.start ≤ t) :
    lapMatch (l :: rest) t = some ((lapMatch rest t).getD l) := by
  unfold lapMatch
  rw [List.filter_cons, if_pos (by simpa using hl)]
  cases hrest : rest.filter (fun l2 => decide (l2.start ≤ t)) with
  | nil => simp
  | cons b bl =>
    rw [getLast?_cons_of_ne_nil _ _ (by simp)]
    cases hx : (b :: bl).getLast? with
    | none => simp [List.getLast?_eq_none_iff] at hx
    | some x => simp [hx]

lemma lapMatch_cons_neg (l : Lap) (rest : List Lap) (t : ℚ) (hl : ¬ l.start ≤ t) :
    lapMatch (l :: rest) t = lapMatch rest t := by
  unfold lapMatch
  rw [List.filter_cons, if_neg (by simpa using hl)]

lemma tyreScan_eq_lapMatch (laps : List Lap) (t : ℚ)
    (hs : List.Pairwise (fun a b : Lap => a.start ≤ b.start) laps) :
    tyreScan laps t = lapMatch laps t := by
  induction laps with
  | nil => rfl
  | cons l rest ih =>
    rcases List.pairwise_cons.mp hs with ⟨hhead, htail⟩
    by_cases hl : l.start ≤ t
    · rw [lapMatch_cons_pos l rest t hl, tyreScan, if_pos hl, ih htail]
    · rw [lapMatch_cons_neg l rest t hl, tyreScan, if_neg hl]
      symm
      apply lapMatch_none_of_forall
      intro l2 hl2 hc
      exact hl (le_trans (hhead l2 hl2) hc)

lemma start_le_of_getLast? (xs : List Lap)
    (hp : List.Pairwise (fun a b : Lap => a.start ≤ b.start) xs)
    (lx : Lap) (hlast : xs.getLast? = some lx) :
    ∀ x ∈ xs, x.start ≤ lx.start := by
  induction xs with
  | nil => simp at hlast
  | cons a rest ih =>
    rcases List.pairwise_cons.mp hp with ⟨hhead, htail⟩
    cases rest with
    | nil =>
      simp only [List.getLast?_singleton, Option.some_inj] at hlast
      subst hlast
      intro x hx
      simp only [List.mem_singleton] at hx
      subst hx
      exact le_refl _
    | cons b bl =>
      rw [List.getLast?_cons_cons] at hlast
      intro x hx
      rcases List.mem_cons.mp hx with heq | hx2
      · subst heq
        exact hhead lx (List.mem_of_mem_getLast? (Option.mem_def.mpr hlast))
      · exact ih htail hlast x hx2

lemma lapNumberAt_mono (laps : List Lap)
    (hs : List.Pairwise (fun a b : Lap => a.start ≤ b.start) laps)
    (hn : List.Pairwise (fun a b : Lap => a.number ≤ b.number) laps)
    (t u : ℚ) (htu : t ≤ u) :
    lapNumberAt laps t ≤ lapNumberAt laps u := by
  induction laps with
  | nil => exact le_refl _
  | cons l rest ih =>
    rcases List.pairwise_cons.mp hs with ⟨hshead, hstail⟩
    rcases List.pairwise_cons.mp hn with ⟨hnhead, hntail⟩
    by_cases hlt : l.start ≤ t
    · have hlu : l.start ≤ u := le_trans hlt htu
      rw [lapNumberAt, lapMatch_cons_pos l rest t hlt]
      rw [lapNumberAt, lapMatch_cons_pos l rest u hlu]
      cases hmt : lapMatch rest t with
      | none =>
        cases hmu : lapMatch rest u with
        | none => simp
        | some lu =>
          simp only [Option.getD_none, Option.getD_some]
          exact hnhead lu (lapMatch_some rest u lu hmu).1
      | some lt2 =>
        cases hmu : lapMatch rest u with
        | none =>
          have h2 := lapMatch_some rest t lt2 hmt
          exact absurd hmu (lapMatch_ne_none rest u lt2 h2.1 (le_trans h2.2 htu))
        | some lu =>
          simp only [Option.getD_some]
          have hrec := ih hstail hntail
          rw [lapNumberAt, hmt, lapNumberAt, hmu] at hrec
          exact hrec
    · by_cases hlu : l.start ≤ u
      · have hnone : lapMatch (l :: rest) t = none := by
          apply lapMatch_none_of_forall
          intro l2 hl2 hc
          rcases List.mem_cons.mp hl2 with heq | h2
          · subst heq; exact hlt hc
          · exact hlt (le_trans (hshead l2 h2) hc)
        rw [lapNumberAt, hnone]
        exact Nat.zero_le _
      · have hnone_t : lapMatch (l :: rest) t = none := by
          apply lapMatch_none_of_forall
          intro l2 hl2 hc
          rcases List.mem_cons.mp hl2 with heq | h2
          · subst heq; exact hlt hc
          · exact hlu (le_trans (hshead l2 h2) (le_trans hc htu))
        rw [lapNumberAt, hnone_t]
        exact Nat.zero_le _

/-- C8 counterexample: a sample at t = 5, earlier than the only lap
start at 10, is assigned lap number 0 and sector times (0,0,0) but the
tyre string UNK, which is not the UNKNOWN tag the claim requires (and
which replay.py line 37 and process_driver line 256 use). -/
theorem prelap_tyre_unk_counterexample :
    tyreAt [⟨10, 1, "SOFT", 1, 2, 3⟩] 5 = "UNK" ∧
    "UNK" ≠ "UNKNOWN" ∧
    lapNumberAt [⟨10, 1, "SOFT", 1, 2, 3⟩] 5 = 0 ∧
    sectorsAt [⟨10, 1, "SOFT", 1, 2, 3⟩] 5 = (0, 0, 0) := by
  refine ⟨?_, by decide, ?_, ?_⟩ <;> decide

/-- C8 amended: with laps ordered by start time, a sample earlier than
every lap start gets lap number 0, sector times (0,0,0) and the tyre
sentinel string UNK; any other sample is assigned the last lap whose
start time is at most the sample timestamp, whose start is maximal
among the qualifying laps and which determines the lap number, tyre
compound and sector times together. -/
theorem lap_assignment_amended (laps : List Lap) (t : ℚ)
    (hs : List.Chain' (fun a b : ℚ => a ≤ b) (laps.map Lap.start)) :
    ((∀ l ∈ laps, t < l.start) →
      lapNumberAt laps t = 0 ∧ tyreAt laps t = "UNK" ∧ sectorsAt laps t = (0, 0, 0)) ∧
    (∀ l, lapMatch laps t = some l →
      l ∈ laps ∧ l.start ≤ t ∧
      (∀ l2 ∈ laps, l2.start ≤ t → l2.start ≤ l.start) ∧
      lapNumberAt laps t = l.number ∧ sectorsAt laps t = (l.s1, l.s2, l.s3) ∧
      tyreAt laps t = l.compound) ∧
    ((∃ l ∈ laps, l.start ≤ t) → ∃ l, lapMatch laps t = some l) := by
  have hp : List.Pairwise (fun a b : Lap => a.start ≤ b.start) laps := by
    rw [← List.pairwise_map (R := fun a b : ℚ => a ≤ b)]
    exact List.chain'_iff_pairwise.mp hs
  refine ⟨?_, ?_, ?_⟩
  · intro hall
    have hnone : lapMatch laps t = none :=
      lapMatch_none_of_forall laps t (fun l hl hc => absurd (hall l hl) (not_lt.mpr hc))
    have hscan : tyreScan laps t = none := by rw [tyreScan_eq_lapMatch laps t hp, hnone]
    rw [lapNumberAt, hnone, tyreAt, hscan, sectorsAt, hnone]
    exact ⟨rfl, rfl, rfl⟩
  · intro l hmatch
    obtain ⟨hmem, hle⟩ := lapMatch_some laps t l hmatch
    refine ⟨hmem, hle, ?_, ?_, ?_, ?_⟩
    · intro l2 hl2 hle2
      have hpf : List.Pairwise (fun a b : Lap => a.start ≤ b.start)
          (laps.filter (fun l3 => decide (l3.start ≤ t))) := hp.filter _
      exact start_le_of_getLast? _ hpf l hmatch l2
        (List.mem_filter.mpr ⟨hl2, by simpa using hle2⟩)
    · rw [lapNumberAt, hmatch]
    · rw [sectorsAt, hmatch]
    · rw [tyreAt, tyreScan_eq_lapMatch laps t hp, hmatch]
  · intro ⟨l, hl, hle⟩
    cases hm : lapMatch laps t with
    | none => exact absurd hm (lapMatch_ne_none laps t l hl hle)
    | some lx => exact ⟨lx, rfl⟩

/-- Witness for the amended C8: two laps starting at 0 and 10, sample
times 11 (inside lap 2) and -1 (before the first lap). -/
theorem lap_assignment_amended_witness :
    (((∀ l ∈ [Lap.mk 0 1 "SOFT" 1 2 3, Lap.mk 10 2 "MEDIUM" 4 5 6], (11 : ℚ) < l.start) →
      lapNumberAt [Lap.mk 0 1 "SOFT" 1 2 3, Lap.mk 10 2 "MEDIUM" 4 5 6] 11 = 0 ∧
      tyreAt [Lap.mk 0 1 "SOFT" 1 2 3, Lap.mk 10 2 "MEDIUM" 4 5 6] 11 = "UNK" ∧
      sectorsAt [Lap.mk 0 1 "SOFT" 1 2 3, Lap.mk 10 2 "MEDIUM" 4 5 6] 11 = (0, 0, 0)) ∧
    (∀ l, lapMatch [Lap.mk 0 1 "SOFT" 1 2 3, Lap.mk 10 2 "MEDIUM" 4 5 6] 11 = some l →
      l ∈ [Lap.mk 0 1 "SOFT" 1 2 3, Lap.mk 10 2 "MEDIUM" 4 5 6] ∧ l.start ≤ 11 ∧
      (∀ l2 ∈ [Lap.mk 0 1 "SOFT" 1 2 3, Lap.mk 10 2 "MEDIUM" 4 5 6],
        l2.start ≤ 11 → l2.start ≤ l.start) ∧
      lapNumberAt [Lap.mk 0 1 "SOFT" 1 2 3, Lap.mk 10 2 "MEDIUM" 4 5 6] 11 = l.number ∧
      sectorsAt [Lap.mk 0 1 "SOFT" 1 2 3, Lap.mk 10 2 "MEDIUM" 4 5 6] 11 =
        (l.s1, l.s2, l.s3) ∧
      tyreAt [Lap.mk 0 1 "SOFT" 1 2 3, Lap.mk 10 2 "MEDIUM" 4 5 6] 11 = l.compound) ∧
    ((∃ l ∈ [Lap.mk 0 1 "SOFT" 1 2 3, Lap.mk 10 2 "MEDIUM" 4 5 6], l.start ≤ 11) →
      ∃ l, lapMatch [Lap.mk 0 1 "SOFT" 1 2 3, Lap.mk 10 2 "MEDIUM" 4 5 6] 11 = some l)) ∧
    lapNumberAt [Lap.mk 0 1 "SOFT" 1 2 3, Lap.mk 10 2 "MEDIUM" 4 5 6] 11 = 2 ∧
    tyreAt [Lap.mk 0 1 "SOFT" 1 2 3, Lap.mk 10 2 "MEDIUM" 4 5 6] 11 = "MEDIUM" ∧
    tyreAt [Lap.mk 0 1 "SOFT" 1 2 3, Lap.mk 10 2 "MEDIUM" 4 5 6] (-1) = "UNK" :=
  ⟨lap_assignment_amended [Lap.mk 0 1 "SOFT" 1 2 3, Lap.mk 10 2 "MEDIUM" 4 5 6] 11
      (by norm_num [List.chain'_cons]),
   by decide, by decide, by decide⟩

/-- C4 counterexample: the duplicate-timestamp batch [0, 0, 1] builds to
the time axis [0, 0, 1], which is not strictly increasing (the first two
samples share one timestamp); the process_driver axis is the same. -/
theorem built_times_not_strict_counterexample :
    (buildSeries [0, 0, 1] []).times = [0, 0, 1] ∧
    ¬ List.Chain' (fun a b : ℚ => a < b) (buildSeries [0, 0, 1] []).times ∧
    ¬ List.Chain' (fun a b : ℚ => a < b) (processTimes [0, 0, 1]) := by
  have h : (buildSeries [0, 0, 1] []).times = [0, 0, 1] := by
    norm_num [buildSeries, rebase, sortTimestamps, List.insertionSort, List.orderedInsert]
  refine ⟨h, ?_, ?_⟩
  · rw [h]
    norm_num [List.chain'_cons]
  · norm_num [processTimes, sortTimestamps, List.insertionSort, List.orderedInsert,
      List.chain'_cons]

/-- C4 amended: built time axes are non-decreasing, and strictly
increasing when the raw timestamps are pairwise distinct (duplicates
survive the build, see the counterexample); cumulative distances are
non-decreasing; and with laps ordered by start time and lap number the
per-sample lap numbers of the built series are non-decreasing. -/
theorem build_monotone_amended (raw : List ℚ) (laps : List Lap) (ps : List (ℚ × ℚ))
    (hls : List.Chain' (fun a b : ℚ => a ≤ b) (laps.map Lap.start))
    (hln : List.Chain' (fun a b : Nat => a ≤ b) (laps.map Lap.number)) :
    List.Chain' (fun a b : ℚ => a ≤ b) (buildSeries raw laps).times ∧
    List.Chain' (fun a b : ℚ => a ≤ b) (processTimes raw) ∧
    (raw.Nodup → List.Chain' (fun a b : ℚ => a < b) (buildSeries raw laps).times ∧
      List.Chain' (fun a b : ℚ => a < b) (processTimes raw)) ∧
    List.Chain' (fun a b : ℝ => a ≤ b) (cumDistances ps) ∧
    List.Chain' (fun a b : Nat => a ≤ b) (buildSeries raw laps).lap_numbers := by
  have hchain : List.Chain' (fun a b : ℚ => a ≤ b) (sortTimestamps raw) :=
    (sortTimestamps_sorted raw).chain'
  refine ⟨rebase_chain_le _ hchain, hchain, ?_, cumDistances_chain ps, ?_⟩
  · intro hnd
    have hstrict := sortTimestamps_strict raw hnd
    exact ⟨rebase_chain_lt _ hstrict, hstrict⟩
  · have hps : List.Pairwise (fun a b : Lap => a.start ≤ b.start) laps :=
      List.pairwise_map.mp (List.chain'_iff_pairwise.mp hls)
    have hpn : List.Pairwise (fun a b : Lap => a.number ≤ b.number) laps :=
      List.pairwise_map.mp (List.chain'_iff_pairwise.mp hln)
    show List.Chain' _ ((sortTimestamps raw).map (lapNumberAt laps))
    rw [List.chain'_map]
    exact hchain.imp (fun a b hab => lapNumberAt_mono laps hps hpn a b hab)

/-- Witness for the amended C4: the out-of-order batch [1, 0], one lap
starting at 0, and the two positions (0,0) and (3,4). -/
theorem build_monotone_amended_witness :
    List.Chain' (fun a b : ℚ => a ≤ b) (buildSeries [1, 0] [Lap.mk 0 1 "SOFT" 0 0 0]).times ∧
    List.Chain' (fun a b : ℚ => a ≤ b) (processTimes [1, 0]) ∧
    (([1, 0] : List ℚ).Nodup →
      List.Chain' (fun a b : ℚ => a < b) (buildSeries [1, 0] [Lap.mk 0 1 "SOFT" 0 0 0]).times ∧
      List.Chain' (fun a b : ℚ => a < b) (processTimes [1, 0])) ∧
    List.Chain' (fun a b : ℝ => a ≤ b) (cumDistances [(0, 0), (3, 4)]) ∧
    List.Chain' (fun a b : Nat => a ≤ b)
      (buildSeries [1, 0] [Lap.mk 0 1 "SOFT" 0 0 0]).lap_numbers :=
  build_monotone_amended [1, 0] [Lap.mk 0 1 "SOFT" 0 0 0] [(0, 0), (3, 4)]
    (by simp) (by simp)

/-- C10 counterexample: the distances-length guard does not protect the
other channel accesses: a trace whose distances list is [0.0] (the seed
of replay.py line 223 for a zero-row frame) next to empty lap_numbers,
tyres and speeds passes the guard at the default index 0 and the
ranking raises IndexError at tr.lap_numbers[0], although the entity is
merely missing from the index map. -/
theorem ranking_raises_counterexample :
    compute_ranking_data [("A", DriverTrace.mk [] [] [] [0] [])] [] =
      Except.error "IndexError" := by
  rfl

/-- C9: the DriverTrace construction of replay.py lines 262-274 passes
the keyword distances that the dataclass of telemetry_loader.py lines
9-20 does not declare, so every batch that reaches it raises TypeError;
the handler of line 278 turns this into the none result.  Hence
process_driver yields none for every input, the traces map is always
empty and playback never starts: the session can never proceed with any
entity, contrary to the claim.  The concrete one-lap batch below merges
to one valid telemetry row and still ends in the raised outcome. -/
theorem process_driver_typeerror (batch : List RawLap)
    (entities : List (String × List RawLap)) :
    process_driver batch = none ∧
    loadTraces entities = [] ∧
    sessionStarts entities = false ∧
    processDriverTry [RawLap.mk 1 [CarRow.mk 0 100] [PosRow.mk 0 5 6]] =
      ProcessOutcome.raised "TypeError: unexpected keyword argument distances" ∧
    mergeAsof [CarRow.mk 0 100] [PosRow.mk 0 5 6] 1 = [MergedRow.mk 0 100 5 6 1] := by
  have h1 : ∀ b : List RawLap, process_driver b = none := by
    intro b
    unfold process_driver processDriverTry
    by_cases hA : b.isEmpty <;> by_cases hB : (b.filterMap processLap).isEmpty <;>
      simp [hA, hB]
  have h2 : loadTraces entities = [] := by
    unfold loadTraces
    rw [List.filterMap_eq_nil_iff]
    intro e he
    rw [h1 e.2]
    rfl
  refine ⟨h1 batch, h2, ?_, rfl, ?_⟩
  · unfold sessionStarts
    rw [h2]
    rfl
  · norm_num [mergeAsof, nearestPosRow, List.filterMap]

end F1RaceVision
